import Mathlib

/-!
Verification of the `adf` package (Augmented Dickey-Fuller test), a Go port of
Netflix Surus' AugmentedDickeyFuller.

Embedding conventions:
* real numbers (Go `float64`) are embedded as `ℚ`, so arithmetic is exact;
* Go slices of `float64` are `List ℚ`;
* a gonum `*mat.Dense` is embedded column-major as `List (List ℚ)`:
  the outer list is the list of columns (the code only ever builds and reads
  whole columns), every column having the same length (the row count);
* every operation that can panic in Go (out-of-range slice index,
  `mat.NewDense` with a non-positive dimension, `SetCol` with a wrong length,
  a `Slice` outside the matrix, `NewVecDense` of length 0) is embedded as an
  `Option`-valued function returning `none` exactly on the panicking inputs;
* Go `int` is embedded as `ℤ` where negative values can occur (the `Lag`
  field, matrix dimensions), `ℕ` where the source only uses non-negative
  values (positions in a column list).
-/

/-- A matrix, stored column-major: the list of its columns. -/
abbrev Mat : Type := List (List ℚ)

/-- Number of rows of a column-major matrix (length of its first column). -/
def rowsM (m : Mat) : ℕ := (m.headD []).length

/-- Number of columns of a column-major matrix. -/
def colsM (m : Mat) : ℕ := m.length

/-- `LPenalty = 0.0001`, the L penalty passed to ridge regression. -/
def LPenalty : ℚ := 0.0001

/-- `DefaultPValue = -3.45`, the default test p-value threshold. -/
def DefaultPValue : ℚ := -3.45

/-- An instance of an ADF test (struct `ADF` of the source). -/
structure ADF where
  Series : List ℚ
  PValueThreshold : ℚ
  Statistic : ℚ
  Lag : ℤ
deriving DecidableEq

/-- `⌊n^(1/3)⌋`: the Go source computes `int(math.Floor(math.Cbrt(float64(n))))`;
we embed the floor of the real cube root of a natural number. -/
def cbrtFloor (n : ℕ) : ℕ := Nat.findGreatest (fun k => k ^ 3 ≤ n) n

/-- `NewADF` creates and returns a new ADF test.  A zero p-value threshold is
replaced by `DefaultPValue`; a negative lag is replaced by `cbrtFloor` of the
series length.  (The Go constructor copies the input slice; lists are values,
so the copy is the list itself.)  The fresh struct's `Statistic` field is the
Go zero value `0`. -/
def NewADF (series : List ℚ) (pvalue : ℚ) (lag : ℤ) : ADF :=
  let pvalue := if pvalue = 0 then DefaultPValue else pvalue
  let lag := if lag < 0 then (cbrtFloor series.length : ℤ) else lag
  { Series := series, PValueThreshold := pvalue, Statistic := 0, Lag := lag }

/-- `stat.Mean(series, nil)`: the arithmetic mean, sum divided by length.
(On an empty list Go yields NaN; over `ℚ` division by zero yields `0`; the
empty case is never reached on a run that completes.) -/
def mean (xs : List ℚ) : ℚ := xs.sum / xs.length

/-- The mean-centering step at the top of `Run`: if the mean is nonzero,
subtract it from every element (in place, on the `Series` field itself, which
the local `series` aliases). -/
def center (xs : List ℚ) : List ℚ :=
  if mean xs ≠ 0 then xs.map (fun v => v - mean xs) else xs

/-- `diff(x)`: allocates `make([]float64, len(x)-1)` — a panic when
`len(x) = 0` since the Go expression `len(x)-1` is then `-1` — and sets
`y[i] = x[i+1] - x[i]` for `i < len(x)-1`. -/
def diff (x : List ℚ) : Option (List ℚ) :=
  if x.length = 0 then none
  else some ((List.range (x.length - 1)).map fun i => x.getD (i + 1) 0 - x.getD i 0)

/-- `laggedMatrix(series, lag)`: allocates `r × c = (len(series)-lag+1) × lag`
(`mat.NewDense` panics unless both are positive) and sets entry `(i, j)` to
`series[lag-j-1+i]` (a panic when that index is out of range).  Column-major:
the result is the list of its `c` columns, column `j` listing rows `i < r`. -/
def laggedMatrix (series : List ℚ) (lag : ℤ) : Option Mat :=
  let r : ℤ := (series.length : ℤ) - lag + 1
  let c : ℤ := lag
  if 0 < r ∧ 0 < c ∧ ∀ j < c.toNat, ∀ i < r.toNat,
      0 ≤ lag - (j : ℤ) - 1 + (i : ℤ) ∧ lag - (j : ℤ) - 1 + (i : ℤ) < (series.length : ℤ) then
    some ((List.range c.toNat).map fun (j : ℕ) =>
      (List.range r.toNat).map fun (i : ℕ) => series.getD (lag - (j : ℤ) - 1 + (i : ℤ)).toNat 0)
  else none

/-- `mat.Col(nil, j, m)`: extract column `j`; panics when `j` is out of the
column range. -/
def matCol (m : Mat) (j : ℕ) : Option (List ℚ) := m[j]?

/-- A Go subslice `s[a:b]`, a panic unless `0 ≤ a ≤ b ≤ len(s)`. -/
def goSlice (s : List ℚ) (a b : ℤ) : Option (List ℚ) :=
  if 0 ≤ a ∧ a ≤ b ∧ b ≤ (s.length : ℤ) then
    some ((s.drop a.toNat).take (b - a).toNat)
  else none

/-- `mat.NewDense(r, c, nil)`: an `r × c` matrix of zeros; panics unless both
dimensions are positive. -/
def newDense (r c : ℤ) : Option Mat :=
  if 0 < r ∧ 0 < c then some (List.replicate c.toNat (List.replicate r.toNat 0)) else none

/-- `m.SetCol(j, v)`: replace column `j` by `v`; panics when `j` is out of the
column range or `v` does not have exactly one entry per row. -/
def setCol (m : Mat) (j : ℕ) (v : List ℚ) : Option Mat :=
  if j < m.length ∧ v.length = rowsM m then some (m.set j v) else none

/-- `m.Slice(i, k, j, l)`: the view of rows `i ≤ row < k` and columns
`j ≤ col < l`; panics when the requested window is outside the matrix. -/
def matSlice (m : Mat) (i k j l : ℤ) : Option Mat :=
  if 0 ≤ i ∧ i ≤ k ∧ k ≤ (rowsM m : ℤ) ∧ 0 ≤ j ∧ j ≤ l ∧ l ≤ (m.length : ℤ) then
    some (((m.drop j.toNat).take (l - j).toNat).map fun col =>
      (col.drop i.toNat).take (k - i).toNat)
  else none

/-- `view(m, i, j, r, c) = m.Slice(i, i+r, j, j+c)`. -/
def view (m : Mat) (i j r c : ℤ) : Option Mat := matSlice m i (i + r) j (j + c)

/-- The loop `for i := 0; i < c; i++ { design.SetCol(1+i, mat.Col(nil, i, yt1)) }`:
copy the columns of `yt1` (given as the column list, in order, i.e. the
successive `mat.Col(nil, i, yt1)`) into `d` starting at column index `j`. -/
def copyColsFrom (d : Mat) (j : ℕ) : List (List ℚ) → Option Mat
  | [] => some d
  | v :: rest => do
      let d1 ← setCol d j v
      copyColsFrom d1 (j + 1) rest

/-- The regression-building part of `Run` (source lines 44-82): mean-center the
series in place, difference it, build the lag matrix `z` of the differences
with `k = lag+1` columns, take the response `zcol1 = ` column 0 of `z` and the
lagged level `xt1 = series[k-1 : n]`, and assemble the design matrix.  Returns
(design, response, centered series). -/
def buildRegression (adf : ADF) : Option (Mat × List ℚ × List ℚ) := do
  let series := center adf.Series
  let n : ℤ := (series.length : ℤ) - 1
  let y ← diff series
  let lag := adf.Lag
  let k : ℤ := lag + 1
  let z ← laggedMatrix y k
  let zcol1 ← matCol z 0
  let xt1 ← goSlice series (k - 1) n
  let r : ℤ := (rowsM z : ℤ)
  let c : ℤ := (colsM z : ℤ)
  let design ←
    if 1 < k then do
      let yt1 ← view z 0 1 r (c - 1)
      let d0 ← newDense (n - k + 1) k
      let d1 ← setCol d0 0 xt1
      copyColsFrom d1 1 yt1
    else do
      let d0 ← newDense (n - k + 1) 1
      setCol d0 0 xt1
  pure (design, zcol1, series)

/-- Modelled from the spec: the ridge regression solver (`NewRidge` /
`Regress`, whose source is not part of this package) is, per the external
collaborator contract, an arbitrary deterministic function taking a design
matrix, a response vector and a penalty to an index-aligned pair of a
coefficient vector and a standard-error vector. -/
def RidgeSolver : Type := Mat → List ℚ → ℚ → List ℚ × List ℚ

/-- `Run` runs the Augmented Dickey-Fuller test: build the regression
(`buildRegression`), wrap the response in a vector (`mat.NewVecDense` panics
on length 0), fit the ridge regression, and store
`beta[0] / sd[0]` in `Statistic` (indexing `beta[0]`, `sd[0]` panics on an
empty vector).  The `Series` field holds the centered series afterwards,
because the centering loop wrote through the alias in place. -/
def Run (ridge : RidgeSolver) (adf : ADF) : Option ADF := do
  let (design, zcol1, series) ← buildRegression adf
  if zcol1.length = 0 then none
  else
    let rr := ridge design zcol1 LPenalty
    let b0 ← rr.1[0]?
    let s0 ← rr.2[0]?
    pure { adf with Series := series, Statistic := b0 / s0 }

/-- `IsStationary` returns true if the tested time series is stationary:
`adf.Statistic < adf.PValueThreshold`. -/
def IsStationary (adf : ADF) : Bool := adf.Statistic < adf.PValueThreshold

/-- A concrete ridge solver satisfying the spec contract (nonempty,
index-aligned output vectors), used to exercise `Run` on concrete data. -/
def testRidge : RidgeSolver := fun _ _ _ => ([1], [1])

/-- A concrete test instance: series `[1, 2, 4, 8]` (mean `15/4 ≠ 0`),
threshold `-7/2`, lag `1`. -/
def testADF : ADF :=
  { Series := [1, 2, 4, 8], PValueThreshold := -7/2, Statistic := 0, Lag := 1 }

/-- The state of `testADF` after `Run testRidge`: the series is centered in
place and the statistic is `1/1 = 1`. -/
def testAfterADF : ADF :=
  { Series := [-11/4, -7/4, 1/4, 17/4], PValueThreshold := -7/2, Statistic := 1, Lag := 1 }

/-! ## Basic facts about the embedded operations -/

theorem cbrtFloor_le (n : ℕ) : cbrtFloor n ^ 3 ≤ n := by
  rcases Nat.eq_zero_or_pos (cbrtFloor n) with h | h
  · simp [h]
  · exact Nat.findGreatest_of_ne_zero (P := fun k => k ^ 3 ≤ n) rfl (by omega)

theorem lt_cbrtFloor_succ (n : ℕ) : n < (cbrtFloor n + 1) ^ 3 := by
  by_contra hcon
  push_neg at hcon
  have h1 : cbrtFloor n + 1 ≤ (cbrtFloor n + 1) ^ 3 := by
    calc cbrtFloor n + 1 ≤ (cbrtFloor n + 1) ^ 1 := by simp
    _ ≤ (cbrtFloor n + 1) ^ 3 := Nat.pow_le_pow_right (Nat.succ_le_succ (Nat.zero_le _)) (by omega)
  exact Nat.findGreatest_is_greatest (Nat.lt_succ_self _) (le_trans h1 hcon) hcon

theorem length_center (xs : List ℚ) : (center xs).length = xs.length := by
  unfold center
  split <;> simp

theorem sum_map_sub_const (xs : List ℚ) (c : ℚ) :
    (xs.map (fun v => v - c)).sum = xs.sum - xs.length * c := by
  induction xs with
  | nil => simp
  | cons a t ih => simp [ih]; ring

theorem center_eq_map (xs : List ℚ) : center xs = xs.map (fun v => v - mean xs) := by
  unfold center
  split
  · rfl
  · rename_i h
    push_neg at h
    rw [h]
    simp

theorem center_of_mean_zero (xs : List ℚ) (h : mean xs = 0) : center xs = xs := by
  unfold center
  rw [if_neg]
  simp [h]

theorem mean_center (xs : List ℚ) (h : xs ≠ []) : mean (center xs) = 0 := by
  have hlen0 : xs.length ≠ 0 := by simpa using h
  have hlen : (xs.length : ℚ) ≠ 0 := Nat.cast_ne_zero.mpr hlen0
  rw [center_eq_map]
  unfold mean at *
  rw [sum_map_sub_const]
  rw [mul_div_cancel₀ _ hlen]
  simp

theorem center_center (xs : List ℚ) (h : xs ≠ []) : center (center xs) = center xs :=
  center_of_mean_zero _ (mean_center xs h)

theorem diff_eq (xs : List ℚ) (h : xs.length ≠ 0) :
    diff xs = some ((List.range (xs.length - 1)).map fun i => xs.getD (i + 1) 0 - xs.getD i 0) := by
  unfold diff
  rw [if_neg h]

theorem length_diff (xs : List ℚ) (y : List ℚ) (h : diff xs = some y) :
    y.length = xs.length - 1 := by
  unfold diff at h
  by_cases h0 : xs.length = 0
  · rw [if_pos h0] at h
    exact absurd h (by simp)
  · rw [if_neg h0] at h
    simp only [Option.some_inj] at h
    subst h
    simp

/-! ## The lag matrix under well-formed dimensions -/

theorem laggedMatrix_eq (s : List ℚ) (L : ℕ) (h1 : 1 ≤ L) (h2 : L ≤ s.length) :
    laggedMatrix s (L : ℤ) =
      some ((List.range L).map fun j =>
        (List.range (s.length - L + 1)).map fun i => s.getD (L - 1 - j + i) 0) := by
  unfold laggedMatrix
  rw [if_pos]
  · have hc : ((L : ℤ)).toNat = L := by omega
    have hr : ((s.length : ℤ) - (L : ℤ) + 1).toNat = s.length - L + 1 := by omega
    rw [hc, hr]
    congr 1
    apply List.map_congr_left
    intro j hj
    apply List.map_congr_left
    intro i hi
    congr 1
    rw [List.mem_range] at hj hi
    omega
  · refine ⟨by omega, by omega, ?_⟩
    intro j hj i hi
    omega

theorem laggedMatrix_col_length (s : List ℚ) (L : ℕ) (col : List ℚ)
    (h : col ∈ (List.range L).map fun j =>
      (List.range (s.length - L + 1)).map fun i => s.getD (L - 1 - j + i) 0) :
    col.length = s.length - L + 1 := by
  rw [List.mem_map] at h
  obtain ⟨j, _, rfl⟩ := h
  simp

/-! ## The column-copying loop -/

theorem headD_set_of_pos (l : List (List ℚ)) (j : ℕ) (v : List ℚ) (h : 1 ≤ j) :
    (l.set j v).headD [] = l.headD [] := by
  cases l with
  | nil => simp
  | cons a t =>
    cases j with
    | zero => omega
    | succ j => simp

theorem take_set_succ (l : List (List ℚ)) (j : ℕ) (v : List ℚ) (h : j < l.length) :
    (l.set j v).take (j + 1) = l.take j ++ [v] := by
  rw [List.set_eq_take_cons_drop v h]
  rw [List.take_append_eq_append_take]
  have h1 : (l.take j).length = j := List.length_take_of_le (le_of_lt h)
  rw [List.take_of_length_le (by omega)]
  rw [h1]
  simp

theorem copyColsFrom_eq (cols : List (List ℚ)) : ∀ (d : Mat) (j : ℕ),
    1 ≤ j → j + cols.length = d.length →
    (∀ v ∈ cols, v.length = rowsM d) →
    copyColsFrom d j cols = some (d.take j ++ cols) := by
  induction cols with
  | nil =>
    intro d j _ hlen _
    have hlen1 : d.length ≤ j := by simp only [List.length_nil] at hlen; omega
    simp only [copyColsFrom]
    rw [List.take_of_length_le hlen1]
    simp
  | cons v vs ih =>
    intro d j hj hlen hv
    have hjd : j < d.length := by simp only [List.length_cons] at hlen; omega
    have hvr : v.length = rowsM d := hv v (by simp)
    have hrows : rowsM (d.set j v) = rowsM d := by
      unfold rowsM
      rw [headD_set_of_pos d j v hj]
    have hrec : copyColsFrom (d.set j v) (j + 1) vs = some ((d.set j v).take (j + 1) ++ vs) := by
      apply ih
      · omega
      · simp only [List.length_set]
        simp only [List.length_cons] at hlen
        omega
      · intro w hw
        rw [hrows]
        exact hv w (by simp [hw])
    simp only [copyColsFrom]
    rw [setCol, if_pos ⟨hjd, hvr⟩]
    simp only [Option.bind_eq_bind, Option.some_bind]
    rw [hrec, take_set_succ d j v hjd]
    simp

/-! ## Evaluating `buildRegression` under the documented preconditions -/

theorem rowsM_cons (c : List ℚ) (t : Mat) : rowsM (c :: t) = c.length := rfl

theorem buildRegression_eq (adf : ADF) (lagN : ℕ)
    (hlag : adf.Lag = (lagN : ℤ)) (hlen : lagN + 2 ≤ adf.Series.length) :
    ∃ y zc ztail,
      diff (center adf.Series) = some y ∧
      y.length = adf.Series.length - 1 ∧
      laggedMatrix y (adf.Lag + 1) = some (zc :: ztail) ∧
      ztail.length = lagN ∧
      (∀ col ∈ zc :: ztail, col.length = adf.Series.length - 1 - lagN) ∧
      goSlice (center adf.Series) (adf.Lag + 1 - 1) (((center adf.Series).length : ℤ) - 1) =
        some (((center adf.Series).drop lagN).take (adf.Series.length - 1 - lagN)) ∧
      buildRegression adf =
        some ((((center adf.Series).drop lagN).take (adf.Series.length - 1 - lagN)) :: ztail,
          zc, center adf.Series) := by
  have hclen : (center adf.Series).length = adf.Series.length := length_center _
  -- the differenced series
  obtain ⟨y, hy, hylen⟩ : ∃ y, diff (center adf.Series) = some y ∧
      y.length = adf.Series.length - 1 := by
    refine ⟨_, diff_eq _ (by omega), ?_⟩
    simp [hclen]
  -- the lag matrix of the differences, with k = lag + 1 columns
  have hcast : adf.Lag + 1 = ((lagN + 1 : ℕ) : ℤ) := by rw [hlag]; push_cast; ring
  have hzfull := laggedMatrix_eq y (lagN + 1) (by omega) (by omega)
  obtain ⟨zc, ztail, hzz⟩ : ∃ zc ztail,
      (List.range (lagN + 1)).map (fun j =>
        (List.range (y.length - (lagN + 1) + 1)).map fun i =>
          y.getD (lagN + 1 - 1 - j + i) 0) = zc :: ztail := by
    apply List.exists_cons_of_ne_nil
    apply List.ne_nil_of_length_pos
    simp
  have hz2 : laggedMatrix y (adf.Lag + 1) = some (zc :: ztail) := by
    rw [hcast, hzfull, hzz]
  have hcols : ∀ col ∈ zc :: ztail, col.length = adf.Series.length - 1 - lagN := by
    intro col hcol
    rw [← hzz] at hcol
    have := laggedMatrix_col_length y (lagN + 1) col hcol
    omega
  have hzclen : zc.length = adf.Series.length - 1 - lagN := hcols zc (by simp)
  have hztaillen : ztail.length = lagN := by
    have hlz : (zc :: ztail).length = lagN + 1 := by rw [← hzz]; simp
    simpa using hlz
  -- the lagged level xt1 = series[k-1 : n]
  have hxt1len : (((center adf.Series).drop lagN).take
      (adf.Series.length - 1 - lagN)).length = adf.Series.length - 1 - lagN := by
    simp [hclen]
    omega
  have hgs : goSlice (center adf.Series) (adf.Lag + 1 - 1) (((center adf.Series).length : ℤ) - 1) =
      some (((center adf.Series).drop lagN).take (adf.Series.length - 1 - lagN)) := by
    unfold goSlice
    rw [if_pos]
    · have e1 : (adf.Lag + 1 - 1).toNat = lagN := by omega
      have e2 : ((((center adf.Series).length : ℤ) - 1) - (adf.Lag + 1 - 1)).toNat =
          adf.Series.length - 1 - lagN := by
        rw [hclen]
        omega
      rw [e1, e2]
    · rw [hclen]
      refine ⟨by omega, by omega, by omega⟩
  refine ⟨y, zc, ztail, hy, hylen, hz2, hztaillen, hcols, hgs, ?_⟩
  have hmc : matCol (zc :: ztail) 0 = some zc := by simp [matCol]
  simp only [buildRegression, Option.bind_eq_bind, hy, Option.some_bind, hz2, hmc, hgs,
    Option.pure_def]
  rcases Nat.eq_zero_or_pos lagN with h0 | hpos
  · -- lag = 0, k = 1: the else branch, a single-column design
    subst h0
    rw [if_neg (by rw [hlag]; norm_num)]
    have hztnil : ztail = [] := List.eq_nil_of_length_eq_zero hztaillen
    subst hztnil
    have hnd : newDense ((((center adf.Series).length : ℤ) - 1) - (adf.Lag + 1) + 1) 1 =
        some [List.replicate (adf.Series.length - 1) 0] := by
      unfold newDense
      rw [if_pos]
      · have e1 : ((((center adf.Series).length : ℤ) - 1) - (adf.Lag + 1) + 1).toNat =
            adf.Series.length - 1 := by
          rw [hclen]
          omega
        rw [e1]
        rfl
      · rw [hclen]
        refine ⟨by omega, by norm_num⟩
    rw [hnd]
    simp only [Option.some_bind]
    have hsc : setCol [List.replicate (adf.Series.length - 1) 0] 0
        (((center adf.Series).drop 0).take (adf.Series.length - 1 - 0)) =
        some [((center adf.Series).drop 0).take (adf.Series.length - 1 - 0)] := by
      unfold setCol
      rw [if_pos]
      · rfl
      · refine ⟨by simp, ?_⟩
        rw [rowsM_cons, hxt1len]
        simp
    rw [hsc]
    simp only [Option.bind_eq_bind, Option.some_bind]
  · -- lag ≥ 1, k > 1: the view branch with the augmentation columns
    rw [if_pos (show (1 : ℤ) < adf.Lag + 1 by rw [hlag]; omega)]
    have hrows : rowsM (zc :: ztail) = adf.Series.length - 1 - lagN := by
      rw [rowsM_cons]
      exact hzclen
    have hcolsMz : colsM (zc :: ztail) = lagN + 1 := by
      unfold colsM
      simp [hztaillen]
    have hview : view (zc :: ztail) 0 1 ((rowsM (zc :: ztail) : ℤ))
        (((colsM (zc :: ztail)) : ℤ) - 1) = some ztail := by
      unfold view matSlice
      rw [if_pos]
      · have e1 : ((1 : ℤ)).toNat = 1 := rfl
        have e2 : ((1 + (((colsM (zc :: ztail)) : ℤ) - 1)) - 1).toNat = lagN := by
          rw [hcolsMz]
          omega
        have e3 : ((0 : ℤ)).toNat = 0 := rfl
        have e4 : (((0 : ℤ) + ((rowsM (zc :: ztail) : ℤ))) - 0).toNat =
            adf.Series.length - 1 - lagN := by
          rw [hrows]
          omega
        rw [e1, e2, e3, e4]
        have htake : (zc :: ztail).drop 1 = ztail := rfl
        rw [htake, List.take_of_length_le (by omega)]
        rw [List.map_congr_left ?_, List.map_id]
        intro col hcol
        rw [List.drop_zero]
        exact List.take_of_length_le (le_of_eq (hcols col (List.mem_cons_of_mem zc hcol)))
      · rw [hrows, hcolsMz]
        simp only [List.length_cons, hztaillen]
        refine ⟨by omega, by omega, by omega, by omega, by omega, by omega⟩
    have hnd2 : newDense ((((center adf.Series).length : ℤ) - 1) - (adf.Lag + 1) + 1)
        (adf.Lag + 1) =
        some (List.replicate (lagN + 1) (List.replicate (adf.Series.length - 1 - lagN) 0)) := by
      unfold newDense
      rw [if_pos]
      · have e1 : ((((center adf.Series).length : ℤ) - 1) - (adf.Lag + 1) + 1).toNat =
            adf.Series.length - 1 - lagN := by
          rw [hclen]
          omega
        have e2 : (adf.Lag + 1).toNat = lagN + 1 := by omega
        rw [e1, e2]
      · rw [hclen]
        refine ⟨by omega, by omega⟩
    have hsc2 : setCol (List.replicate (lagN + 1)
          (List.replicate (adf.Series.length - 1 - lagN) 0)) 0
        (((center adf.Series).drop lagN).take (adf.Series.length - 1 - lagN)) =
        some ((((center adf.Series).drop lagN).take (adf.Series.length - 1 - lagN)) ::
          List.replicate lagN (List.replicate (adf.Series.length - 1 - lagN) 0)) := by
      unfold setCol
      rw [if_pos]
      · rw [List.replicate_succ]
        rfl
      · refine ⟨by simp, ?_⟩
        rw [List.replicate_succ, rowsM_cons, hxt1len]
        simp
    have hcopy : copyColsFrom
        ((((center adf.Series).drop lagN).take (adf.Series.length - 1 - lagN)) ::
          List.replicate lagN (List.replicate (adf.Series.length - 1 - lagN) 0)) 1 ztail =
        some ((((center adf.Series).drop lagN).take (adf.Series.length - 1 - lagN)) :: ztail) := by
      rw [copyColsFrom_eq ztail _ 1 (le_refl 1)
        (by simp only [List.length_cons, List.length_replicate, hztaillen]; omega) ?_]
      · rfl
      · intro v hv
        rw [rowsM_cons, hxt1len]
        exact hcols v (List.mem_cons_of_mem zc hv)
    rw [hview]
    simp only [Option.bind_eq_bind, Option.some_bind]
    rw [hnd2]
    simp only [Option.bind_eq_bind, Option.some_bind]
    rw [hsc2]
    simp only [Option.bind_eq_bind, Option.some_bind]
    rw [hcopy]
    simp only [Option.bind_eq_bind, Option.some_bind]

/-! ## Evaluating and inverting `Run` -/

theorem Run_eq (ridge : RidgeSolver) (adf : ADF) (D : Mat) (R S : List ℚ)
    (hbr : buildRegression adf = some (D, R, S)) (hR : R.length ≠ 0)
    (b0 s0 : ℚ) (bs ss : List ℚ)
    (hb : (ridge D R LPenalty).1 = b0 :: bs) (hs : (ridge D R LPenalty).2 = s0 :: ss) :
    Run ridge adf = some { adf with Series := S, Statistic := b0 / s0 } := by
  unfold Run
  rw [hbr]
  simp only [Option.bind_eq_bind, Option.some_bind]
  rw [if_neg hR]
  rw [hb, hs]
  simp

theorem buildRegression_series (adf : ADF) (t : Mat × List ℚ × List ℚ)
    (h : buildRegression adf = some t) : t.2.2 = center adf.Series := by
  simp only [buildRegression, Option.bind_eq_bind] at h
  by_cases hk : (1 : ℤ) < adf.Lag + 1
  · simp only [if_pos hk, Option.bind_eq_some, Option.pure_def, Option.some_inj] at h
    obtain ⟨y, -, z, -, zc, -, xt1, -, yt1, -, d0, -, d1, -, d2, -, ht⟩ := h
    rw [← ht]
  · simp only [if_neg hk, Option.bind_eq_some, Option.pure_def, Option.some_inj] at h
    obtain ⟨y, -, z, -, zc, -, xt1, -, d0, -, d1, -, ht⟩ := h
    rw [← ht]

theorem Run_some_elim (ridge : RidgeSolver) (adf a' : ADF) (h : Run ridge adf = some a') :
    ∃ D R, buildRegression adf = some (D, R, center adf.Series) ∧
      a'.Series = center adf.Series ∧ a'.PValueThreshold = adf.PValueThreshold ∧
      a'.Lag = adf.Lag ∧
      ∃ b0 s0, (ridge D R LPenalty).1[0]? = some b0 ∧ (ridge D R LPenalty).2[0]? = some s0 ∧
        a'.Statistic = b0 / s0 := by
  unfold Run at h
  simp only [Option.bind_eq_bind, Option.bind_eq_some] at h
  obtain ⟨⟨D, R, S⟩, hbr, h2⟩ := h
  have hS : S = center adf.Series := buildRegression_series adf (D, R, S) hbr
  subst hS
  refine ⟨D, R, hbr, ?_⟩
  by_cases h0 : R.length = 0
  · rw [if_pos h0] at h2
    exact absurd h2 (by simp)
  · rw [if_neg h0] at h2
    simp only [Option.bind_eq_some, Option.pure_def, Option.some_inj] at h2
    obtain ⟨b0, hb0, s0, hs0, ha⟩ := h2
    subst ha
    exact ⟨rfl, rfl, rfl, b0, s0, hb0, hs0, rfl⟩

/-! ## Concrete evaluations on the test instance -/

theorem center_testSeries : center [1, 2, 4, 8] = [-11/4, -7/4, 1/4, 17/4] := by
  unfold center mean
  norm_num

theorem diff_testSeries : diff [-11/4, -7/4, 1/4, 17/4] = some [1, 2, 4] := by
  unfold diff
  norm_num [List.range_succ]

theorem buildRegression_test : buildRegression testADF =
    some ([[-7/4, 1/4], [1, 2]], [2, 4], [-11/4, -7/4, 1/4, 17/4]) := by
  simp only [buildRegression, Option.bind_eq_bind, testADF]
  rw [center_testSeries, diff_testSeries]
  rfl

theorem Run_test : Run testRidge testADF = some testAfterADF := by
  have h := Run_eq testRidge testADF [[-7/4, 1/4], [1, 2]] [2, 4] [-11/4, -7/4, 1/4, 17/4]
    buildRegression_test (by norm_num) 1 1 [] [] rfl rfl
  rw [h]
  norm_num [testADF, testAfterADF]

/-! ## The claims -/

/-- Claim C4: for every sequence `s` and integer `L` with `1 ≤ L ≤ len(s)`,
`laggedMatrix(s, L)` has `len(s) - L + 1` rows and `L` columns, and entry
`(i, j)` equals `s[L - j - 1 + i]`; in particular column 0, row 0 equals
`s[L-1]` (so column 0 is the most recent lag, column `L-1` the oldest). -/
theorem laggedMatrix_spec (s : List ℚ) (L : ℕ) (h1 : 1 ≤ L) (h2 : L ≤ s.length) :
    ∃ z : Mat, laggedMatrix s (L : ℤ) = some z ∧
      colsM z = L ∧ rowsM z = s.length - L + 1 ∧
      (∀ col ∈ z, col.length = s.length - L + 1) ∧
      (∀ j, j < L → ∀ i, i < s.length - L + 1 → (z.getD j [])[i]? = s[L - j - 1 + i]?) ∧
      (z.getD 0 [])[0]? = s[L - 1]? := by
  refine ⟨_, laggedMatrix_eq s L h1 h2, by simp [colsM], ?_, laggedMatrix_col_length s L, ?_, ?_⟩
  · unfold rowsM
    have hlenz : ((List.range L).map fun j =>
        (List.range (s.length - L + 1)).map fun i => s.getD (L - 1 - j + i) 0).length = L := by
      simp
    obtain ⟨a, t, hat⟩ := List.exists_cons_of_ne_nil
      (List.ne_nil_of_length_pos (l := (List.range L).map fun j =>
        (List.range (s.length - L + 1)).map fun i => s.getD (L - 1 - j + i) 0)
        (by rw [hlenz]; omega))
    rw [hat, List.headD_cons]
    apply laggedMatrix_col_length s L
    rw [hat]
    exact List.mem_cons_self a t
  · intro j hj i hi
    have hcol : ((List.range L).map fun j =>
        (List.range (s.length - L + 1)).map fun i => s.getD (L - 1 - j + i) 0)[j]? =
        some ((List.range (s.length - L + 1)).map fun i => s.getD (L - 1 - j + i) 0) := by
      simp [List.getElem?_map, List.getElem?_range, hj]
    rw [List.getD_eq_getElem?_getD, hcol]
    have hentry : ((List.range (s.length - L + 1)).map fun i => s.getD (L - 1 - j + i) 0)[i]? =
        some (s.getD (L - 1 - j + i) 0) := by
      simp [List.getElem?_map, List.getElem?_range, hi]
    rw [Option.getD_some, hentry]
    have hidx : L - 1 - j + i = L - j - 1 + i := by omega
    have hbound : L - j - 1 + i < s.length := by omega
    rw [hidx, List.getElem?_eq_getElem hbound, List.getD_eq_getElem s 0 (by omega)]
  · have h0 : (0 : ℕ) < L := h1
    have hr : (0 : ℕ) < s.length - L + 1 := by omega
    have hcol : ((List.range L).map fun j =>
        (List.range (s.length - L + 1)).map fun i => s.getD (L - 1 - j + i) 0)[0]? =
        some ((List.range (s.length - L + 1)).map fun i => s.getD (L - 1 - 0 + i) 0) := by
      simp [List.getElem?_map, List.getElem?_range, h0]
    rw [List.getD_eq_getElem?_getD, hcol]
    have hentry : ((List.range (s.length - L + 1)).map fun i => s.getD (L - 1 - 0 + i) 0)[0]? =
        some (s.getD (L - 1 - 0 + 0) 0) := by
      simp [List.getElem?_map, List.getElem?_range, hr]
    rw [Option.getD_some, hentry]
    have hidx : L - 1 - 0 + 0 = L - 1 := by omega
    rw [hidx, List.getElem?_eq_getElem (by omega), List.getD_eq_getElem s 0 (by omega)]

/-- Witness for C4 at `s = [1, 2, 3]`, `L = 2`. -/
theorem laggedMatrix_spec_witness :
    ∃ z : Mat, laggedMatrix [1, 2, 3] ((2 : ℕ) : ℤ) = some z ∧
      colsM z = 2 ∧ rowsM z = [(1 : ℚ), 2, 3].length - 2 + 1 ∧
      (∀ col ∈ z, col.length = [(1 : ℚ), 2, 3].length - 2 + 1) ∧
      (∀ j, j < 2 → ∀ i, i < [(1 : ℚ), 2, 3].length - 2 + 1 →
        (z.getD j [])[i]? = [(1 : ℚ), 2, 3][2 - j - 1 + i]?) ∧
      (z.getD 0 [])[0]? = [(1 : ℚ), 2, 3][2 - 1]? :=
  laggedMatrix_spec [1, 2, 3] 2 (by decide) (by decide)

/-- Claim C5: for every sequence `x` with `len(x) ≥ 2`, `diff(x)` has length
`len(x) - 1` and `diff(x)[i] = x[i+1] - x[i]` for every `i < len(x) - 1`. -/
theorem diff_spec (x : List ℚ) (h : 2 ≤ x.length) :
    ∃ y, diff x = some y ∧ y.length = x.length - 1 ∧
      ∀ i, i < x.length - 1 →
        ∃ a b, x[i + 1]? = some a ∧ x[i]? = some b ∧ y[i]? = some (a - b) := by
  refine ⟨_, diff_eq x (by omega), by simp, ?_⟩
  intro i hi
  refine ⟨x.getD (i + 1) 0, x.getD i 0, ?_, ?_, ?_⟩
  · rw [List.getElem?_eq_getElem (by omega), List.getD_eq_getElem x 0 (by omega)]
  · rw [List.getElem?_eq_getElem (by omega), List.getD_eq_getElem x 0 (by omega)]
  · simp [List.getElem?_map, List.getElem?_range, hi]

/-- Witness for C5 at `x = [1, 2, 4]`. -/
theorem diff_spec_witness :
    ∃ y, diff [1, 2, 4] = some y ∧ y.length = [(1 : ℚ), 2, 4].length - 1 ∧
      ∀ i, i < [(1 : ℚ), 2, 4].length - 1 →
        ∃ a b, [(1 : ℚ), 2, 4][i + 1]? = some a ∧ [(1 : ℚ), 2, 4][i]? = some b ∧
          y[i]? = some (a - b) :=
  diff_spec [1, 2, 4] (by decide)

/-- Claim C6: construction defaulting: a threshold of exactly 0 is replaced by
-3.45; a negative lag is replaced by the floor of the cube root of the series
length (characterized by its cube bounds); any other threshold and any
non-negative lag are stored unchanged; the stored lag is ≥ 0 after every
construction. -/
theorem newADF_spec (series : List ℚ) (pvalue : ℚ) (lag : ℤ) :
    (pvalue = 0 → (NewADF series pvalue lag).PValueThreshold = -3.45) ∧
    (pvalue ≠ 0 → (NewADF series pvalue lag).PValueThreshold = pvalue) ∧
    (lag < 0 → (NewADF series pvalue lag).Lag = (cbrtFloor series.length : ℤ) ∧
      cbrtFloor series.length ^ 3 ≤ series.length ∧
      series.length < (cbrtFloor series.length + 1) ^ 3) ∧
    (0 ≤ lag → (NewADF series pvalue lag).Lag = lag) ∧
    0 ≤ (NewADF series pvalue lag).Lag ∧
    (NewADF series pvalue lag).Series = series ∧
    (NewADF series pvalue lag).Statistic = 0 := by
  constructor
  · intro hp
    simp [NewADF, hp, DefaultPValue]
  constructor
  · intro hp
    simp [NewADF, hp]
  constructor
  · intro hl
    exact ⟨by simp [NewADF, hl], cbrtFloor_le _, lt_cbrtFloor_succ _⟩
  constructor
  · intro hl
    simp [NewADF, not_lt.mpr hl]
  refine ⟨?_, by simp [NewADF], by simp [NewADF]⟩
  by_cases hl : lag < 0
  · simp [NewADF, hl]
  · simp [NewADF, hl]
    omega

/-- Witness for C6 at `series = [1, ..., 8]`, `pvalue = 0`, `lag = -1`
(so the defaults fire, with `cbrtFloor 8 = 2`). -/
theorem newADF_spec_witness :
    ((0 : ℚ) = 0 → (NewADF [1, 2, 3, 4, 5, 6, 7, 8] 0 (-1)).PValueThreshold = -3.45) ∧
    ((0 : ℚ) ≠ 0 → (NewADF [1, 2, 3, 4, 5, 6, 7, 8] 0 (-1)).PValueThreshold = 0) ∧
    ((-1 : ℤ) < 0 → (NewADF [1, 2, 3, 4, 5, 6, 7, 8] 0 (-1)).Lag =
        (cbrtFloor [(1 : ℚ), 2, 3, 4, 5, 6, 7, 8].length : ℤ) ∧
      cbrtFloor [(1 : ℚ), 2, 3, 4, 5, 6, 7, 8].length ^ 3 ≤
        [(1 : ℚ), 2, 3, 4, 5, 6, 7, 8].length ∧
      [(1 : ℚ), 2, 3, 4, 5, 6, 7, 8].length <
        (cbrtFloor [(1 : ℚ), 2, 3, 4, 5, 6, 7, 8].length + 1) ^ 3) ∧
    ((0 : ℤ) ≤ -1 → (NewADF [1, 2, 3, 4, 5, 6, 7, 8] 0 (-1)).Lag = -1) ∧
    0 ≤ (NewADF [1, 2, 3, 4, 5, 6, 7, 8] 0 (-1)).Lag ∧
    (NewADF [1, 2, 3, 4, 5, 6, 7, 8] 0 (-1)).Series = [1, 2, 3, 4, 5, 6, 7, 8] ∧
    (NewADF [1, 2, 3, 4, 5, 6, 7, 8] 0 (-1)).Statistic = 0 :=
  newADF_spec [1, 2, 3, 4, 5, 6, 7, 8] 0 (-1)

/-- Claim C9: `IsStationary` returns true iff `Statistic < PValueThreshold`
strictly (equality returns false), and depends on nothing but those two
fields; it is a pure function of the instance. -/
theorem isStationary_spec (a b : ADF) :
    (IsStationary a = true ↔ a.Statistic < a.PValueThreshold) ∧
    (a.Statistic = a.PValueThreshold → IsStationary a = false) ∧
    (a.Statistic = b.Statistic → a.PValueThreshold = b.PValueThreshold →
      IsStationary a = IsStationary b) := by
  refine ⟨?_, ?_, ?_⟩
  · simp [IsStationary]
  · intro h
    simp [IsStationary, h]
  · intro h1 h2
    simp [IsStationary, h1, h2]

/-- Witness for C9 at the concrete instance `testADF`. -/
theorem isStationary_spec_witness :
    (IsStationary testADF = true ↔ testADF.Statistic < testADF.PValueThreshold) ∧
    (testADF.Statistic = testADF.PValueThreshold → IsStationary testADF = false) ∧
    (testADF.Statistic = testADF.Statistic →
      testADF.PValueThreshold = testADF.PValueThreshold →
      IsStationary testADF = IsStationary testADF) :=
  isStationary_spec testADF testADF

/-- Claim C1: under `lag ≥ 0` and `len(series) > lag + 1`, `Run` centers the
series, differences it, builds the lag matrix `z` of the differences with
`k = lag + 1` columns, takes the response to be column 0 of `z`, assembles the
design matrix from the lagged level `series[k-1 : n]` as column 0 followed by
columns 1..k-1 of `z`, fits the ridge regression with penalty `LPenalty`, and
stores `coefficient[0] / standardError[0]` in `Statistic`. -/
theorem adf_run_statistic (ridge : RidgeSolver) (adf : ADF)
    (hlag : 0 ≤ adf.Lag) (hlen : adf.Lag + 1 < (adf.Series.length : ℤ))
    (hridge : ∀ d v, (ridge d v LPenalty).1 ≠ [] ∧ (ridge d v LPenalty).2 ≠ []) :
    ∃ y z xt1,
      diff (center adf.Series) = some y ∧
      laggedMatrix y (adf.Lag + 1) = some z ∧
      matCol z 0 = some (z.headD []) ∧
      goSlice (center adf.Series) (adf.Lag + 1 - 1) (((center adf.Series).length : ℤ) - 1) =
        some xt1 ∧
      buildRegression adf = some (xt1 :: z.tail, z.headD [], center adf.Series) ∧
      Run ridge adf = some
        { adf with
          Series := center adf.Series,
          Statistic := ((ridge (xt1 :: z.tail) (z.headD []) LPenalty).1.headD 0) /
                       ((ridge (xt1 :: z.tail) (z.headD []) LPenalty).2.headD 0) } := by
  have hlagn : adf.Lag = ((adf.Lag.toNat : ℕ) : ℤ) := (Int.toNat_of_nonneg hlag).symm
  obtain ⟨y, zc, ztail, hy, hylen, hz, hztl, hcols, hgs, hbr⟩ :=
    buildRegression_eq adf adf.Lag.toNat hlagn (by omega)
  refine ⟨y, zc :: ztail, _, hy, hz, by simp [matCol], hgs, ?_, ?_⟩
  · exact hbr
  · have hzclen : zc.length = adf.Series.length - 1 - adf.Lag.toNat := hcols zc (by simp)
    have hRne : zc.length ≠ 0 := by omega
    obtain ⟨b0, bs, hb⟩ := List.exists_cons_of_ne_nil
      (hridge ((((center adf.Series).drop adf.Lag.toNat).take
        (adf.Series.length - 1 - adf.Lag.toNat)) :: ztail) zc).1
    obtain ⟨s0, ss, hs⟩ := List.exists_cons_of_ne_nil
      (hridge ((((center adf.Series).drop adf.Lag.toNat).take
        (adf.Series.length - 1 - adf.Lag.toNat)) :: ztail) zc).2
    have hrun := Run_eq ridge adf _ zc (center adf.Series) hbr hRne b0 s0 bs ss hb hs
    rw [hrun]
    simp only [List.tail_cons, List.headD_cons]
    rw [hb, hs]
    simp only [List.headD_cons]

/-- Witness for C1 at `testRidge` and `testADF`. -/
theorem adf_run_statistic_witness :
    0 ≤ testADF.Lag ∧ testADF.Lag + 1 < (testADF.Series.length : ℤ) ∧
    ∃ y z xt1,
      diff (center testADF.Series) = some y ∧
      laggedMatrix y (testADF.Lag + 1) = some z ∧
      matCol z 0 = some (z.headD []) ∧
      goSlice (center testADF.Series) (testADF.Lag + 1 - 1)
        (((center testADF.Series).length : ℤ) - 1) = some xt1 ∧
      buildRegression testADF = some (xt1 :: z.tail, z.headD [], center testADF.Series) ∧
      Run testRidge testADF = some
        { testADF with
          Series := center testADF.Series,
          Statistic := ((testRidge (xt1 :: z.tail) (z.headD []) LPenalty).1.headD 0) /
                       ((testRidge (xt1 :: z.tail) (z.headD []) LPenalty).2.headD 0) } :=
  ⟨by decide, by decide, adf_run_statistic testRidge testADF (by decide) (by decide)
    (fun d v => ⟨by simp [testRidge], by simp [testRidge]⟩)⟩

/-- Claim C8: under `lag ≥ 0` and `len(series) - 1 > lag`, every step of the
regression construction is total: `buildRegression` (the slice, the
difference, the lag matrix with its positive dimensions and in-bounds
accesses, the design allocation and the column copies) succeeds, and `Run`
succeeds for every solver honouring the contract. -/
theorem adf_run_total (adf : ADF) (hlag : 0 ≤ adf.Lag)
    (hlen : adf.Lag + 1 < (adf.Series.length : ℤ)) :
    (buildRegression adf).isSome ∧
    ∀ ridge : RidgeSolver,
      (∀ d v, (ridge d v LPenalty).1 ≠ [] ∧ (ridge d v LPenalty).2 ≠ []) →
      (Run ridge adf).isSome := by
  have hlagn : adf.Lag = ((adf.Lag.toNat : ℕ) : ℤ) := (Int.toNat_of_nonneg hlag).symm
  obtain ⟨y, zc, ztail, hy, hylen, hz, hztl, hcols, hgs, hbr⟩ :=
    buildRegression_eq adf adf.Lag.toNat hlagn (by omega)
  refine ⟨by rw [hbr]; rfl, ?_⟩
  intro ridge hridge
  have hzclen : zc.length = adf.Series.length - 1 - adf.Lag.toNat := hcols zc (by simp)
  obtain ⟨b0, bs, hb⟩ := List.exists_cons_of_ne_nil (hridge _ zc).1
  obtain ⟨s0, ss, hs⟩ := List.exists_cons_of_ne_nil (hridge _ zc).2
  rw [Run_eq ridge adf _ zc (center adf.Series) hbr (by omega) b0 s0 bs ss hb hs]
  rfl

/-- Witness for C8 at `testADF`. -/
theorem adf_run_total_witness :
    0 ≤ testADF.Lag ∧ testADF.Lag + 1 < (testADF.Series.length : ℤ) ∧
    (buildRegression testADF).isSome ∧
    ∀ ridge : RidgeSolver,
      (∀ d v, (ridge d v LPenalty).1 ≠ [] ∧ (ridge d v LPenalty).2 ≠ []) →
      (Run ridge testADF).isSome :=
  ⟨by decide, by decide, (adf_run_total testADF (by decide) (by decide)).1,
    (adf_run_total testADF (by decide) (by decide)).2⟩

/-- Counterexample to C3 as stated: on `testADF` (mean `15/4 ≠ 0`) `Run`
completes and the `Series` field HAS changed — the centering loop writes
through the alias `series := adf.Series` in place. -/
theorem adf_run_frame_cex :
    Run testRidge testADF = some testAfterADF ∧ testAfterADF.Series ≠ testADF.Series :=
  ⟨Run_test, by norm_num [testAfterADF, testADF]⟩

/-- Amended C3: when `Run` completes it mutates only the `Statistic` and
`Series` fields; `PValueThreshold` and `Lag` are unchanged, and `Series`
becomes the mean-centered series (so it is unchanged exactly when the mean is
already zero). -/
theorem adf_run_frame (ridge : RidgeSolver) (adf a' : ADF) (h : Run ridge adf = some a') :
    a'.PValueThreshold = adf.PValueThreshold ∧ a'.Lag = adf.Lag ∧
    a'.Series = center adf.Series ∧
    (mean adf.Series = 0 → a'.Series = adf.Series) := by
  obtain ⟨D, R, hbr, hseries, hpv, hlg, -⟩ := Run_some_elim ridge adf a' h
  refine ⟨hpv, hlg, hseries, ?_⟩
  intro h0
  rw [hseries, center_of_mean_zero adf.Series h0]

/-- Witness for amended C3 at `testRidge`, `testADF`. -/
theorem adf_run_frame_witness :
    Run testRidge testADF = some testAfterADF ∧
    (testAfterADF.PValueThreshold = testADF.PValueThreshold ∧
      testAfterADF.Lag = testADF.Lag ∧
      testAfterADF.Series = center testADF.Series ∧
      (mean testADF.Series = 0 → testAfterADF.Series = testADF.Series)) :=
  ⟨Run_test, adf_run_frame testRidge testADF testAfterADF Run_test⟩

/-- Claim C7: when `Run` completes, the internal series equals the original
series minus its arithmetic mean elementwise, and is left unchanged when the
mean is exactly zero. -/
theorem adf_run_centering (ridge : RidgeSolver) (adf a' : ADF)
    (h : Run ridge adf = some a') :
    a'.Series = adf.Series.map (fun v => v - mean adf.Series) ∧
    (mean adf.Series = 0 → a'.Series = adf.Series) := by
  obtain ⟨D, R, hbr, hseries, -, -, -⟩ := Run_some_elim ridge adf a' h
  constructor
  · rw [hseries, center_eq_map]
  · intro h0
    rw [hseries, center_of_mean_zero adf.Series h0]

/-- Witness for C7 at `testRidge`, `testADF`. -/
theorem adf_run_centering_witness :
    Run testRidge testADF = some testAfterADF ∧
    testAfterADF.Series = testADF.Series.map (fun v => v - mean testADF.Series) ∧
    (mean testADF.Series = 0 → testAfterADF.Series = testADF.Series) :=
  ⟨Run_test, (adf_run_centering testRidge testADF testAfterADF Run_test).1,
    (adf_run_centering testRidge testADF testAfterADF Run_test).2⟩

/-- Counterexample to C2 as stated: at `testADF` (lag 1, so `k = 2`), the
design matrix built by the run is `[[-7/4, 1/4], [1, 2]]` and the lag matrix
of the differenced series is `[[2, 4], [1, 2]]`; design column `1 + 0` is
`[1, 2]`, which is NOT lag-matrix column `0` (that is `[2, 4]`, the response):
the code takes the view starting at column 1, not column 0. -/
theorem adf_design_aug_columns_cex :
    diff (center testADF.Series) = some [1, 2, 4] ∧
    laggedMatrix [1, 2, 4] (testADF.Lag + 1) = some [[2, 4], [1, 2]] ∧
    buildRegression testADF =
      some ([[-7/4, 1/4], [1, 2]], [2, 4], [-11/4, -7/4, 1/4, 17/4]) ∧
    ([[-7/4, 1/4], [1, 2]] : Mat)[1 + 0]? ≠ ([[2, 4], [1, 2]] : Mat)[0]? := by
  refine ⟨?_, rfl, buildRegression_test, ?_⟩
  · rw [show testADF.Series = [1, 2, 4, 8] from rfl, center_testSeries]
    exact diff_testSeries
  · norm_num

/-- Amended C2: for every run with `k = lag + 1 > 1`, columns `1..k-1` of the
design matrix equal columns `1..k-1` of the lag matrix `z` built from the
differenced series (index-aligned: design column `1+j` equals `z` column
`1+j` for `j = 0..k-2`), not its columns `0..k-2`. -/
theorem adf_design_aug_columns (adf : ADF) (hlag1 : 1 ≤ adf.Lag)
    (hlen : adf.Lag + 1 < (adf.Series.length : ℤ)) :
    ∃ y z D R, diff (center adf.Series) = some y ∧
      laggedMatrix y (adf.Lag + 1) = some z ∧
      buildRegression adf = some (D, R, center adf.Series) ∧
      colsM D = colsM z ∧
      ∀ j : ℕ, (j : ℤ) < adf.Lag → D[1 + j]? = z[1 + j]? := by
  have hlagn : adf.Lag = ((adf.Lag.toNat : ℕ) : ℤ) := (Int.toNat_of_nonneg (by omega)).symm
  obtain ⟨y, zc, ztail, hy, hylen, hz, hztl, hcols, hgs, hbr⟩ :=
    buildRegression_eq adf adf.Lag.toNat hlagn (by omega)
  refine ⟨y, zc :: ztail, _, zc, hy, hz, hbr, by simp [colsM], ?_⟩
  intro j hj
  rw [show 1 + j = j + 1 from by omega]
  simp

/-- Witness for amended C2 at `testADF` (lag 1). -/
theorem adf_design_aug_columns_witness :
    1 ≤ testADF.Lag ∧ testADF.Lag + 1 < (testADF.Series.length : ℤ) ∧
    ∃ y z D R, diff (center testADF.Series) = some y ∧
      laggedMatrix y (testADF.Lag + 1) = some z ∧
      buildRegression testADF = some (D, R, center testADF.Series) ∧
      colsM D = colsM z ∧
      ∀ j : ℕ, (j : ℤ) < testADF.Lag → D[1 + j]? = z[1 + j]? :=
  ⟨by decide, by decide, adf_design_aug_columns testADF (by decide) (by decide)⟩

/-- `buildRegression` reads the instance only through the centered series and
the lag. -/
theorem buildRegression_congr (a b : ADF) (h1 : center a.Series = center b.Series)
    (h2 : a.Lag = b.Lag) : buildRegression a = buildRegression b := by
  simp only [buildRegression, Option.bind_eq_bind, h1, h2]

/-- Claim C10: under the documented preconditions, running the test twice
leaves the instance exactly as running it once: the first run centers the
series in place (its mean becomes exactly 0 under exact arithmetic), so the
second run's centering is the identity and the deterministic computation
reproduces the same statistic. -/
theorem adf_run_idempotent (ridge : RidgeSolver) (adf : ADF)
    (hlag : 0 ≤ adf.Lag) (hlen : adf.Lag + 1 < (adf.Series.length : ℤ)) :
    ∀ a', Run ridge adf = some a' → Run ridge a' = some a' := by
  intro a' h
  have hlagn : adf.Lag = ((adf.Lag.toNat : ℕ) : ℤ) := (Int.toNat_of_nonneg hlag).symm
  obtain ⟨y, zc, ztail, hy, hylen, hz, hztl, hcols, hgs, hbr⟩ :=
    buildRegression_eq adf adf.Lag.toNat hlagn (by omega)
  obtain ⟨D, R, hbr2, hseries, hpv, hlg, b0, s0, hb0, hs0, hstat⟩ :=
    Run_some_elim ridge adf a' h
  have hSne : adf.Series ≠ [] := by
    intro hnil
    rw [hnil] at hlen
    simp at hlen
    omega
  have hcc : center a'.Series = a'.Series := by
    rw [hseries]
    exact center_center adf.Series hSne
  have hbra' : buildRegression a' = some (D, R, a'.Series) := by
    have hcong : buildRegression a' = buildRegression adf :=
      buildRegression_congr a' adf (by rw [hcc, hseries]) (by rw [hlg])
    rw [hcong, hbr2, hseries]
  have hR : R = zc := by
    rw [hbr] at hbr2
    simp only [Option.some_inj, Prod.mk.injEq] at hbr2
    exact hbr2.2.1.symm
  have hRlen : R.length ≠ 0 := by
    rw [hR, hcols zc (by simp)]
    omega
  obtain ⟨bs, hb⟩ : ∃ bs, (ridge D R LPenalty).1 = b0 :: bs := by
    rcases hl : (ridge D R LPenalty).1 with _ | ⟨a, t⟩
    · rw [hl] at hb0
      simp at hb0
    · rw [hl] at hb0
      simp only [List.getElem?_cons_zero, Option.some_inj] at hb0
      exact ⟨t, by rw [hb0]⟩
  obtain ⟨ss, hs⟩ : ∃ ss, (ridge D R LPenalty).2 = s0 :: ss := by
    rcases hl : (ridge D R LPenalty).2 with _ | ⟨a, t⟩
    · rw [hl] at hs0
      simp at hs0
    · rw [hl] at hs0
      simp only [List.getElem?_cons_zero, Option.some_inj] at hs0
      exact ⟨t, by rw [hs0]⟩
  have hrun2 := Run_eq ridge a' D R a'.Series hbra' hRlen b0 s0 bs ss hb hs
  rw [hrun2]
  rcases a' with ⟨S', pv', st', lg'⟩
  simp only at hstat
  rw [hstat]

/-- Witness for C10: running `testADF` twice through `testRidge` reproduces
the state after one run. -/
theorem adf_run_idempotent_witness :
    0 ≤ testADF.Lag ∧ testADF.Lag + 1 < (testADF.Series.length : ℤ) ∧
    Run testRidge testADF = some testAfterADF ∧
    Run testRidge testAfterADF = some testAfterADF :=
  ⟨by decide, by decide, Run_test,
    adf_run_idempotent testRidge testADF (by decide) (by decide) testAfterADF Run_test⟩
